import Mathlib

/-!
Shallow embedding of the csv-formatter inference engine
(`csv_verifier.py`, `csv_formatter.py`): the tabular verifier
(`verify_csv`), the line-structure classifier (the core of `verify_txt`),
the plain-text-to-table promotion of `transform_file`, and the
encoding-detection contract of `detect_encoding`.

Modelling conventions:
* a Python string is a list of characters (`Str`), a Python list a Lean list;
* parsed CSV content is the record list produced by the external
  quoted-field-aware parser (`csv.reader`), one record per input line;
* the float comparisons `n > 0.8 * t` and `m >= 0.7 * t` are modelled by
  the exact rational comparisons `5 * n > 4 * t` and `10 * m ≥ 7 * t`
  (for the magnitudes involved the rounded float products decide
  identically to the exact rationals);
* an uncaught Python exception is modelled as `Option.none`.
-/

/-- A Python string: a sequence of characters. -/
abbrev Str := List Char

/-- The characters removed by Python `str.strip()` with no arguments. -/
def isPySpace (c : Char) : Bool :=
  c = ' ' || c = '\t' || c = '\n' || c = '\r' || c = '\x0b' || c = '\x0c'

/-- Python `s.strip()`: drop whitespace from both ends. -/
def pyStrip (s : Str) : Str :=
  ((s.dropWhile isPySpace).reverse.dropWhile isPySpace).reverse

/-- Python `c in s` for a single character `c`. -/
def strContains (s : Str) (c : Char) : Bool :=
  decide (c ∈ s)

/-- Python `s.split(d)` for a one-character separator: split at every
occurrence of `d`, keeping empty pieces (so `"".split(d) == [""]` and
`"a,,b".split(",") == ["a","","b"]`). -/
def pySplit (d : Char) : Str → List Str
  | [] => [[]]
  | c :: cs =>
    match pySplit d cs with
    | [] => [[]]
    | r :: rs => if c = d then [] :: r :: rs else (c :: r) :: rs

/-- Python `s.replace(".", "", 1)`: remove the first dot, if any. -/
def removeFirstDot : Str → Str
  | [] => []
  | c :: cs => if c = '.' then cs else c :: removeFirstDot cs

/-- Python `s.isdigit()` on ASCII text: nonempty and all characters digits. -/
def pyIsDigit (s : Str) : Bool :=
  !s.isEmpty && s.all Char.isDigit

/-- `csv_verifier.py` line 117: `val.strip().replace('.', '', 1).isdigit()`,
the verifier's test for a numeric cell value. -/
def isNumericLiteral (s : Str) : Bool :=
  pyIsDigit (removeFirstDot (pyStrip s))

/-! ## The tabular verifier (`verify_csv`, `csv_verifier.py` lines 76-138) -/

/-- `verify_csv` lines 81-83 and 88-92: a record parsed as a single cell
that still textually contains the delimiter is re-split on it.  The same
repair is applied to the header record and, independently, to each data
record. -/
def resplitSingle (d : Char) (r : List Str) : List Str :=
  match r with
  | [c] => if strContains c d then pySplit d c else r
  | _ => r

/-- The header sequence `verify_csv` works with, after the re-split repair. -/
def tableHeaders (d : Char) (hrec : List Str) : List Str :=
  resplitSingle d hrec

/-- The data rows `verify_csv` works with, after the per-row re-split repair. -/
def tableRows (d : Char) (recs : List (List Str)) : List (List Str) :=
  recs.map (resplitSingle d)

/-- `verify_csv` line 114: the cell values present at column index `i`,
skipping rows too short to have that index. -/
def columnValues (rows : List (List Str)) (i : Nat) : List Str :=
  rows.filterMap (fun r => r[i]?)

/-- `verify_csv` lines 116-121: a column is "numeric" when strictly more
than 80% of its gathered values pass `isNumericLiteral`, else "string"
(`numeric_count > 0.8 * len(column_values)` as `5 * n > 4 * t`). -/
def columnType (rows : List (List Str)) (i : Nat) : Str :=
  let vals := columnValues rows i
  let numericCount := (vals.filter isNumericLiteral).length
  if 5 * numericCount > 4 * vals.length then "numeric".toList else "string".toList

/-- `verify_csv` lines 112-121: the per-header-index column type tags. -/
def columnTypes (headers : List Str) (rows : List (List Str)) : List Str :=
  (List.range headers.length).map (columnType rows)

/-- One step of Python dict construction from a pair: insert key `k` with
value `v`, overwriting in place the first entry already keyed `k`,
otherwise appending at the end. -/
def dictUpdate : List (Str × Str) → Str → Str → List (Str × Str)
  | [], k, v => [(k, v)]
  | (k0, v0) :: rest, k, v =>
    if k0 = k then (k0, v) :: rest else (k0, v0) :: dictUpdate rest k v

/-- Python `dict(pairs)` (`verify_csv` line 135, `dict(zip(headers,
column_data_types))`): pairs are inserted left to right, later pairs
overwriting earlier ones with the same key. -/
def pyDict (ps : List (Str × Str)) : List (Str × Str) :=
  ps.foldl (fun acc p => dictUpdate acc p.1 p.2) []

/-- Association-list lookup (Python `d[k]`): the first entry keyed `k`. -/
def assocLookup (k : Str) : List (Str × Str) → Option Str
  | [] => none
  | (k0, v) :: rest => if k0 = k then some v else assocLookup k rest

/-- The content-derived fields of the dict returned by `verify_csv`
(lines 124-136); the I/O context fields (path, byte size, encoding) are
environment values, not computed from the parsed table. -/
structure VerificationReport where
  header_count : Nat
  headers : List Str
  row_count : Nat
  consistent_columns : Bool
  is_single_column_csv : Bool
  empty_cells : Nat
  column_data_types : List (Str × Str)
  deriving Repr, DecidableEq

/-- `verify_csv` lines 76-138 on the parsed records of the input, with the
resolved delimiter `d`.  `none` models the uncaught `StopIteration` raised
by `headers = next(reader)` when the parsed content has no records at all. -/
def verify_csv (records : List (List Str)) (d : Char) : Option VerificationReport :=
  match records with
  | [] => none
  | hrec :: rest =>
    let headers := tableHeaders d hrec
    let rows := tableRows d rest
    let column_counts := rows.map List.length
    let is_single := decide (headers = ["Content".toList])
    let consistent :=
      if is_single then rows.all (fun r => decide (1 ≤ r.length))
      else decide (column_counts.dedup.length = 1)
    some {
      header_count := headers.length
      headers := headers
      row_count := rows.length
      consistent_columns := consistent
      is_single_column_csv := is_single
      empty_cells := (rows.map (fun r => (r.filter (fun c => (pyStrip c).isEmpty)).length)).sum
      column_data_types := pyDict (headers.zip (columnTypes headers rows)) }

/-! ## The line-structure classifier (`verify_txt`, `csv_verifier.py`
lines 263-315).  `lines` is the (possibly sampled) line list the function
works on; the raw frequency winner over all lines (lines 270-272) is dead
code with respect to the returned fields, because `potential_delimiter` is
`None` unless the CSV-likeness test overrides it with the header
delimiter, so it is not modelled. -/

/-- The fixed candidate delimiter set, in source order. -/
def candidateDelims : List Char := [',', ';', '\t', '|']

/-- `verify_txt` line 281: per-candidate occurrence counts in a line. -/
def delimCounts (l : Str) : List (Char × Nat) :=
  candidateDelims.map (fun d => (d, l.count d))

/-- Python `max(counts, key=counts.get)` over the candidate counts: the
first candidate with the maximal count.  The fold keeps the earlier entry
on ties, and the `(',', 0)` start is subsumed by the comma entry heading
the list. -/
def bestDelim (counts : List (Char × Nat)) : Char × Nat :=
  counts.foldl (fun best q => if q.2 > best.2 then q else best) (',', 0)

/-- `verify_txt` line 282: the header delimiter with its count. -/
def headerDelimPair (l0 : Str) : Char × Nat :=
  bestDelim (delimCounts l0)

/-- The delimiter most frequent in the first line. -/
def headerDelim (l0 : Str) : Char :=
  (headerDelimPair l0).1

/-- `abs (a - b)` on machine integers, for natural counts. -/
def natGap (a b : Nat) : Nat := max a b - min a b

/-- `verify_txt` lines 287-288: the number of subsequent lines that are
non-empty after stripping and whose header-delimiter count is within ±2 of
the first line's count. -/
def matchingLines (l0 : Str) (rest : List Str) : Nat :=
  (rest.filter (fun l =>
    !(pyStrip l).isEmpty &&
      decide (natGap (l.count (headerDelim l0)) (l0.count (headerDelim l0)) ≤ 2))).length

/-- The content-derived fields of the dict returned by `verify_txt`
(lines 302-315), minus the I/O context (path, size, encoding,
large-file flag). -/
structure LineClassification where
  line_count : Nat
  empty_lines : Nat
  avg_line_length : Rat
  consistent_line_length : Bool
  potential_csv : Bool
  potential_delimiter : Option Char
  csv_confidence : Rat
  deriving Repr, DecidableEq

/-- `verify_txt` lines 266-300 on the sampled line list.  `none` models
the `ValueError` raised by `max(line_lengths)` on an empty line list
(line 300); the CSV-likeness test (lines 279-293) compares
`matching_lines` against `0.7 * (len(lines) - 1)`, i.e. against the count
of all subsequent lines, empty or not. -/
def classify (lines : List Str) : Option LineClassification :=
  match lines with
  | [] => none
  | l0 :: rest =>
    let lens := (l0 :: rest).map List.length
    let base : LineClassification := {
      line_count := (l0 :: rest).length
      empty_lines := ((l0 :: rest).filter (fun l => (pyStrip l).isEmpty)).length
      avg_line_length := (lens.sum : Rat) / ((max 1 (l0 :: rest).length : Nat) : Rat)
      consistent_line_length := decide (lens.foldl max 0 - lens.foldl min l0.length < 10)
      potential_csv := false
      potential_delimiter := none
      csv_confidence := 0 }
    if candidateDelims.any (fun dd => strContains l0 dd) then
      if 0 < l0.count (headerDelim l0) then
        if 10 * matchingLines l0 rest ≥ 7 * rest.length then
          some { base with
            potential_csv := true
            potential_delimiter := some (headerDelim l0)
            csv_confidence :=
              (matchingLines l0 rest : Rat) / ((max 1 rest.length : Nat) : Rat) }
        else some base
      else some base
    else some base

/-! ## Plain-text-to-table promotion (`transform_file`, `csv_verifier.py`
lines 446-482, txt→csv branch for an input classified potential-CSV) -/

/-- `transform_file` lines 461-468: a line containing the detected
delimiter is stripped and split on it; a line without it becomes a single
stripped cell. -/
def splitLineForCsv (d : Char) (line : Str) : List Str :=
  if strContains line d then pySplit d (pyStrip line) else [pyStrip line]

/-- The rows before padding, one per input line. -/
def rawRows (d : Char) (lines : List Str) : List (List Str) :=
  lines.map (splitLineForCsv d)

/-- The running maximum `max_columns` of `transform_file` lines 459-468
(the `max(max_columns, 1)` of the no-delimiter branch is subsumed because
that branch always yields a one-cell row). -/
def maxColumns (d : Char) (lines : List Str) : Nat :=
  (rawRows d lines).foldl (fun m r => max m r.length) 0

/-- `transform_file` lines 470-473: every row is padded with empty-string
cells up to the observed maximum column count. -/
def promoteRows (d : Char) (lines : List Str) : List (List Str) :=
  (rawRows d lines).map (fun r => r ++ List.replicate (maxColumns d lines - r.length) ([] : Str))

/-- The `csv.writer` QUOTE_MINIMAL rule: a cell is quoted when it contains
the delimiter, the quote character, or a line-terminator character. -/
def needsQuote (d : Char) (cell : Str) : Bool :=
  strContains cell d || strContains cell '"' || strContains cell '\n' || strContains cell '\r'

/-- A cell as written by `csv.writer`: quoted (with inner quotes doubled)
when required, otherwise verbatim. -/
def quoteCell (d : Char) (cell : Str) : Str :=
  if needsQuote d cell then
    '"' :: (cell.flatMap (fun c => if c = '"' then ['"', '"'] else [c])) ++ ['"']
  else cell

/-- Cells joined by the delimiter `d`. -/
def joinWith (d : Char) : List Str → Str
  | [] => []
  | [c] => c
  | c :: c2 :: cs => c ++ d :: joinWith d (c2 :: cs)

/-- One output line of `csv.writer` with delimiter `d`. -/
def serializeRow (d : Char) (row : List Str) : Str :=
  joinWith d (row.map (quoteCell d))

/-- `transform_file` lines 448-482: the written output lines of the
txt→csv branch.  The rows are built by splitting each input line on the
delimiter `detected` by the classifier (line 450), but serialized by
`csv.writer(outfile, delimiter=delimiter)` with the caller-supplied
`writeDelim` (line 477). -/
def transformTxtRows (lines : List Str) (detected writeDelim : Char) : List Str :=
  (promoteRows detected lines).map (serializeRow writeDelim)

/-! ## Encoding detection (`detect_encoding`) -/

/-- A UTF-8 continuation byte. -/
def contByte (b : Nat) : Bool := 0x80 ≤ b && b ≤ 0xBF

/-- Standard UTF-8 validity (RFC 3629): ASCII, two- to four-byte
sequences with the overlong, surrogate and above-U+10FFFF encodings
excluded. -/
def isValidUTF8 : List Nat → Bool
  | [] => true
  | b :: rest =>
    if b ≤ 0x7F then isValidUTF8 rest
    else if 0xC2 ≤ b && b ≤ 0xDF then
      match rest with
      | b1 :: r => contByte b1 && isValidUTF8 r
      | [] => false
    else if b = 0xE0 then
      match rest with
      | b1 :: b2 :: r => (0xA0 ≤ b1 && b1 ≤ 0xBF) && contByte b2 && isValidUTF8 r
      | _ => false
    else if (0xE1 ≤ b && b ≤ 0xEC) || b = 0xEE || b = 0xEF then
      match rest with
      | b1 :: b2 :: r => contByte b1 && contByte b2 && isValidUTF8 r
      | _ => false
    else if b = 0xED then
      match rest with
      | b1 :: b2 :: r => (0x80 ≤ b1 && b1 ≤ 0x9F) && contByte b2 && isValidUTF8 r
      | _ => false
    else if b = 0xF0 then
      match rest with
      | b1 :: b2 :: b3 :: r =>
        (0x90 ≤ b1 && b1 ≤ 0xBF) && contByte b2 && contByte b3 && isValidUTF8 r
      | _ => false
    else if 0xF1 ≤ b && b ≤ 0xF3 then
      match rest with
      | b1 :: b2 :: b3 :: r => contByte b1 && contByte b2 && contByte b3 && isValidUTF8 r
      | _ => false
    else if b = 0xF4 then
      match rest with
      | b1 :: b2 :: b3 :: r =>
        (0x80 ≤ b1 && b1 ≤ 0x8F) && contByte b2 && contByte b3 && isValidUTF8 r
      | _ => false
    else false

/-- Modelled from the spec: `detect_encoding` (`csv_verifier.py` lines
14-27 and `csv_formatter.py` lines 13-26) delegates to the external
`chardet` library, whose algorithm is not part of this repository's
sources.  Per spec §4.1 the contract is: detection fails on an empty byte
sample, is deterministic for a fixed input, and returns UTF-8 for valid
UTF-8 input.  Inputs outside that contract are modelled as detection
failure (`none`). -/
def detect_encoding (bytes : List Nat) : Option String :=
  if bytes.isEmpty then none
  else if isValidUTF8 bytes then some "utf-8"
  else none

/-! ## Spec-side definitions, for refinement comparisons -/

/-- The spec's wording for a numeric cell (§4.3 step 3), for comparison
with the source's `isNumericLiteral`: after stripping, a "non-negative
decimal number (digits with at most one decimal point)" — at least one
digit, nothing but digits and dots, and at most one dot. -/
def specIsDecimalNumber (s : Str) : Bool :=
  let t := pyStrip s
  t.any Char.isDigit && t.all (fun c => c.isDigit || c = '.') && decide (t.count '.' ≤ 1)

/-- Claim C4's wording for the classifier's threshold denominator, for
comparison with the source's `len(lines) - 1`: the number of subsequent
lines that are non-empty after stripping. -/
def specNonEmptyCount (ls : List Str) : Nat :=
  (ls.filter (fun l => !(pyStrip l).isEmpty)).length

/-- The value of the last pair keyed `k` in a pair list, if any: the
"last entry wins" reading of Python dict construction, used to
characterize `pyDict`. -/
def lastValue (k : Str) : List (Str × Str) → Option Str
  | [] => none
  | p :: rest =>
    match lastValue k rest with
    | some v => some v
    | none => if p.1 = k then some p.2 else none

/-! ## Helper lemmas -/

/-- `len(set(xs)) == 1` says: nonempty and all members equal. -/
theorem dedup_length_one_iff (ns : List Nat) :
    ns.dedup.length = 1 ↔ ns ≠ [] ∧ ∃ n, ∀ x ∈ ns, x = n := by
  constructor
  · intro h
    obtain ⟨a, ha⟩ := List.length_eq_one.mp h
    refine ⟨?_, a, ?_⟩
    · intro hn
      subst hn
      simp at ha
    · intro x hx
      have hmem : x ∈ ns.dedup := List.mem_dedup.mpr hx
      rw [ha] at hmem
      simpa using hmem
  · rintro ⟨hne, n, hall⟩
    have h1 : ns.dedup ≠ [] := by
      simpa [List.dedup_eq_nil] using hne
    have h2 : ∀ x ∈ ns.dedup, x = n := fun x hx => hall x (List.mem_dedup.mp hx)
    rcases hd : ns.dedup with _ | ⟨a, t⟩
    · exact absurd hd h1
    · have hnd : ns.dedup.Nodup := List.nodup_dedup ns
      rw [hd] at hnd
      have ha : a = n := h2 a (by rw [hd]; simp)
      rcases ht : t with _ | ⟨b, t2⟩
      · simp [hd, ht]
      · exfalso
        have hb : b = n := h2 b (by rw [hd, ht]; simp)
        have hnotmem : a ∉ t := (List.nodup_cons.mp hnd).1
        rw [ht] at hnotmem
        exact hnotmem (by simp [ha, hb])

/-! ## Claim theorems -/

/-- C1 counterexample: on an input whose parsed content has no rows at all
(hence no header row), `verify_csv` does not return a report — the header
read `next(reader)` raises `StopIteration`, modelled as `none`. -/
theorem c1_counterexample : verify_csv [] ',' = none := rfl

/-- C1 (amended): for every input whose parsed content has at least one
record (the header row), `verify_csv` completes and returns a
fully-populated report — in particular for inputs with no data rows and
for arbitrarily ragged rows; only the completely empty input fails. -/
theorem c1_verify_total_on_headed_input (hrec : List Str) (rest : List (List Str)) (d : Char) :
    ∃ rep, verify_csv (hrec :: rest) d = some rep :=
  ⟨_, rfl⟩

/-- The `consistent_columns` field of a successful verification, read off
the definition. -/
theorem verify_consistent_eq (hrec : List Str) (rest : List (List Str)) (d : Char) :
    (verify_csv (hrec :: rest) d).map VerificationReport.consistent_columns =
      some (if decide (tableHeaders d hrec = ["Content".toList]) then
              (tableRows d rest).all (fun r => decide (1 ≤ r.length))
            else decide (((tableRows d rest).map List.length).dedup.length = 1)) := rfl

/-- The `is_single_column_csv` field of a successful verification. -/
theorem verify_is_single_eq (hrec : List Str) (rest : List (List Str)) (d : Char) :
    (verify_csv (hrec :: rest) d).map VerificationReport.is_single_column_csv =
      some (decide (tableHeaders d hrec = ["Content".toList])) := rfl

/-- The `headers` field of a successful verification. -/
theorem verify_headers_eq (hrec : List Str) (rest : List (List Str)) (d : Char) :
    (verify_csv (hrec :: rest) d).map VerificationReport.headers =
      some (tableHeaders d hrec) := rfl

/-- The `header_count` field of a successful verification. -/
theorem verify_header_count_eq (hrec : List Str) (rest : List (List Str)) (d : Char) :
    (verify_csv (hrec :: rest) d).map VerificationReport.header_count =
      some (tableHeaders d hrec).length := rfl

/-- The `column_data_types` field of a successful verification. -/
theorem verify_dict_eq (hrec : List Str) (rest : List (List Str)) (d : Char) :
    (verify_csv (hrec :: rest) d).map VerificationReport.column_data_types =
      some (pyDict ((tableHeaders d hrec).zip
        (columnTypes (tableHeaders d hrec) (tableRows d rest)))) := rfl

/-- C2 counterexample: a table with header `["a","b"]` and zero data rows.
Every data row (there are none) vacuously has the same column count, yet
the report says `consistent_columns = false`, because the set of distinct
row lengths is empty rather than a singleton. -/
theorem c2_counterexample :
    (∀ r ∈ tableRows ',' ([] : List (List Str)), r.length = 2) ∧
    tableHeaders ',' ["a".toList, "b".toList] ≠ ["Content".toList] ∧
    (verify_csv [["a".toList, "b".toList]] ',').map VerificationReport.consistent_columns =
      some false :=
  ⟨by decide, by decide, by decide⟩

/-- C2 (amended): for a table whose (repaired) header is not the single
"Content" column and which has at least one data row, `consistent_columns`
is true exactly when all data rows share one column count; a table with
zero data rows instead reports `consistent_columns = false`. -/
theorem c2_consistency_iff_uniform_row_length (hrec : List Str) (rest : List (List Str))
    (d : Char) (hhd : tableHeaders d hrec ≠ ["Content".toList])
    (hne : tableRows d rest ≠ []) :
    (verify_csv (hrec :: rest) d).map VerificationReport.consistent_columns = some true ↔
      ∃ n, ∀ r ∈ tableRows d rest, r.length = n := by
  rw [verify_consistent_eq]
  have hs : decide (tableHeaders d hrec = ["Content".toList]) = false := by simpa using hhd
  simp only [hs, Bool.false_eq_true, if_false, Option.some.injEq, decide_eq_true_eq]
  rw [dedup_length_one_iff]
  constructor
  · rintro ⟨-, n, hall⟩
    exact ⟨n, fun r hr => hall r.length (List.mem_map_of_mem List.length hr)⟩
  · rintro ⟨n, hall⟩
    refine ⟨by simpa using hne, n, ?_⟩
    intro x hx
    obtain ⟨r, hr, hrx⟩ := List.mem_map.mp hx
    exact hrx ▸ hall r hr

/-- C2 witness: a 2-header table with two uniform data rows instantiates
the amended claim. -/
theorem c2_witness :
    (tableHeaders ',' ["a".toList, "b".toList] ≠ ["Content".toList] ∧
      tableRows ',' [["1".toList, "2".toList], ["3".toList, "4".toList]] ≠ []) ∧
    ((verify_csv [["a".toList, "b".toList], ["1".toList, "2".toList], ["3".toList, "4".toList]]
        ',').map VerificationReport.consistent_columns = some true ↔
      ∃ n, ∀ r ∈ tableRows ',' [["1".toList, "2".toList], ["3".toList, "4".toList]],
        r.length = n) :=
  ⟨⟨by decide, by decide⟩,
    c2_consistency_iff_uniform_row_length ["a".toList, "b".toList]
      [["1".toList, "2".toList], ["3".toList, "4".toList]] ',' (by decide) (by decide)⟩

/-- C3 counterexample: a single-column "Content" table containing one
zero-length row (the parse of a blank line).  The claim predicts
`consistent_columns = true` regardless of per-row lengths, but the report
says `false`, because the special-case rule demands every row have at
least one column. -/
theorem c3_counterexample :
    (verify_csv [["Content".toList], []] ',').map VerificationReport.is_single_column_csv =
      some true ∧
    (verify_csv [["Content".toList], []] ',').map VerificationReport.consistent_columns =
      some false :=
  ⟨by decide, by decide⟩

/-- C3 (amended): for a table whose header is exactly the single "Content"
column (with a delimiter not occurring in that name, so the header
survives the re-split repair), the report flags the single-column special
case, and `consistent_columns` is true exactly when every data row has at
least one column — per-row lengths are otherwise irrelevant. -/
theorem c3_single_content_consistency (d : Char) (rest : List (List Str))
    (hd : strContains "Content".toList d = false) :
    (verify_csv (["Content".toList] :: rest) d).map VerificationReport.is_single_column_csv =
      some true ∧
    ((verify_csv (["Content".toList] :: rest) d).map VerificationReport.consistent_columns =
        some true ↔ ∀ r ∈ tableRows d rest, 1 ≤ r.length) := by
  have hh : tableHeaders d ["Content".toList] = ["Content".toList] := by
    simp only [tableHeaders, resplitSingle]
    rw [hd]
    simp
  constructor
  · rw [verify_is_single_eq, hh]
    simp
  · rw [verify_consistent_eq, hh]
    simp [List.all_eq_true]

/-- C3 witness: rows of lengths 1 and 2 under the "Content" header
instantiate the amended claim. -/
theorem c3_witness :
    strContains "Content".toList ',' = false ∧
    ((verify_csv [["Content".toList], ["a".toList], ["b".toList, "c".toList]] ',').map
        VerificationReport.is_single_column_csv = some true ∧
      ((verify_csv [["Content".toList], ["a".toList], ["b".toList, "c".toList]] ',').map
          VerificationReport.consistent_columns = some true ↔
        ∀ r ∈ tableRows ',' [["a".toList], ["b".toList, "c".toList]], 1 ≤ r.length)) :=
  ⟨by decide,
    c3_single_content_consistency ',' [["a".toList], ["b".toList, "c".toList]] (by decide)⟩

/-- The cons equation of `removeFirstDot`, for rewriting. -/
theorem removeFirstDot_cons (c : Char) (cs : Str) :
    removeFirstDot (c :: cs) = if c = '.' then cs else c :: removeFirstDot cs := rfl

/-- `replace('.', '', 1)` yields the empty string only for `""` and `"."`. -/
theorem rfd_eq_nil_iff (t : Str) : removeFirstDot t = [] ↔ t = [] ∨ t = ['.'] := by
  cases t with
  | nil => simp [removeFirstDot]
  | cons c cs =>
    by_cases hc : c = '.'
    · subst hc
      rw [removeFirstDot_cons, if_pos rfl]
      constructor
      · intro h
        right
        rw [h]
      · rintro (h | h)
        · exact absurd h (by simp)
        · simpa using h
    · rw [removeFirstDot_cons, if_neg hc]
      simp [hc]

/-- After removing the first dot, the remainder is all digits exactly when
the original had at most one dot and nothing but digits and dots. -/
theorem all_digit_rfd_iff (t : Str) :
    (∀ c ∈ removeFirstDot t, c.isDigit = true) ↔
      (t.count '.' ≤ 1 ∧ ∀ c ∈ t, c.isDigit = true ∨ c = '.') := by
  induction t with
  | nil => simp [removeFirstDot]
  | cons c cs ih =>
    by_cases hc : c = '.'
    · subst hc
      rw [removeFirstDot_cons, if_pos rfl, List.count_cons_self]
      constructor
      · intro hall
        have hnotin : '.' ∉ cs := by
          intro hmem
          exact absurd (hall '.' hmem) (by decide)
        have hz : cs.count '.' = 0 := List.count_eq_zero.mpr hnotin
        refine ⟨by omega, ?_⟩
        intro x hx
        rcases List.mem_cons.mp hx with rfl | hx
        · right
          rfl
        · left
          exact hall x hx
      · rintro ⟨hcnt, hall⟩
        have hz : cs.count '.' = 0 := by omega
        intro x hx
        have hne : x ≠ '.' := by
          rintro rfl
          exact (List.count_eq_zero.mp hz) hx
        rcases hall x (List.mem_cons_of_mem _ hx) with h | h
        · exact h
        · exact absurd h hne
    · rw [removeFirstDot_cons, if_neg hc, List.count_cons_of_ne (fun h => hc h.symm)]
      constructor
      · intro hall
        have h1 : c.isDigit = true := hall c (List.mem_cons_self _ _)
        obtain ⟨hcnt, hrest⟩ := ih.mp (fun x hx => hall x (List.mem_cons_of_mem _ hx))
        refine ⟨hcnt, ?_⟩
        intro x hx
        rcases List.mem_cons.mp hx with rfl | hx
        · left
          exact h1
        · exact hrest x hx
      · rintro ⟨hcnt, hall⟩
        intro x hx
        rcases List.mem_cons.mp hx with rfl | hx
        · rcases hall x (List.mem_cons_self _ _) with h | h
          · exact h
          · exact absurd h hc
        · exact (ih.mpr ⟨hcnt, fun y hy => hall y (List.mem_cons_of_mem _ hy)⟩) x hx

/-- The source's numeric test on an already-stripped string, in the
spec's terms: at least one digit, only digits and dots, at most one dot. -/
theorem numeric_literal_iff (t : Str) :
    pyIsDigit (removeFirstDot t) = true ↔
      ((∃ c ∈ t, c.isDigit = true) ∧ (∀ c ∈ t, c.isDigit = true ∨ c = '.') ∧
        t.count '.' ≤ 1) := by
  have h0 : pyIsDigit (removeFirstDot t) = true ↔
      (removeFirstDot t ≠ [] ∧ ∀ c ∈ removeFirstDot t, c.isDigit = true) := by
    simp [pyIsDigit, List.isEmpty_iff, List.all_eq_true]
  rw [h0, all_digit_rfd_iff]
  constructor
  · rintro ⟨hne, hcnt, hall⟩
    refine ⟨?_, hall, hcnt⟩
    by_contra hno
    push_neg at hno
    have hdot : ∀ x ∈ t, x = '.' := by
      intro x hx
      rcases hall x hx with h | h
      · exact absurd h (hno x hx)
      · exact h
    have hcl : t.count '.' = t.length :=
      List.count_eq_length.mpr (fun b hb => (hdot b hb).symm)
    have hnil : ¬(t = [] ∨ t = ['.']) := fun h => hne ((rfd_eq_nil_iff t).mpr h)
    push_neg at hnil
    obtain ⟨hA, hB⟩ := hnil
    rcases t with _ | ⟨a, t2⟩
    · exact hA rfl
    rcases t2 with _ | ⟨b, t3⟩
    · have ha : a = '.' := hdot a (by simp)
      subst ha
      exact hB rfl
    · rw [hcl] at hcnt
      simp only [List.length_cons] at hcnt
      omega
  · rintro ⟨⟨c, hc, hcd⟩, hall, hcnt⟩
    refine ⟨?_, hcnt, hall⟩
    intro hrfd
    rcases (rfd_eq_nil_iff t).mp hrfd with h | h
    · subst h
      exact absurd hc (by simp)
    · subst h
      simp at hc
      subst hc
      exact absurd hcd (by decide)

/-- Refinement for C5: the source's cell-numericity test
(`val.strip().replace('.', '', 1).isdigit()`) coincides with the spec's
"non-negative decimal number". -/
theorem isNumericLiteral_eq_spec (s : Str) : isNumericLiteral s = specIsDecimalNumber s := by
  have h := numeric_literal_iff (pyStrip s)
  have h2 : specIsDecimalNumber s = true ↔
      ((∃ c ∈ pyStrip s, c.isDigit = true) ∧ (∀ c ∈ pyStrip s, c.isDigit = true ∨ c = '.') ∧
        (pyStrip s).count '.' ≤ 1) := by
    simp [specIsDecimalNumber, List.any_eq_true, List.all_eq_true, Bool.or_eq_true,
      decide_eq_true_eq, and_assoc]
  unfold isNumericLiteral
  rw [Bool.eq_iff_iff, h, h2]

/-- C5: for every header index, the verifier gathers the values present at
that index (skipping rows too short to have it) and tags the column
"numeric" exactly when strictly more than 80% of them are non-negative
decimal numbers in the spec's sense, else "string" (zero gathered values
giving "string"). -/
theorem c5_column_type_spec (headers : List Str) (rows : List (List Str)) (i : Nat)
    (h : i < headers.length) :
    (columnTypes headers rows)[i]? =
      some (if 5 * ((columnValues rows i).filter specIsDecimalNumber).length >
              4 * (columnValues rows i).length
            then "numeric".toList else "string".toList) := by
  unfold columnTypes
  rw [List.getElem?_map, List.getElem?_range h]
  simp only [Option.map_some']
  congr 1
  show (if 5 * (List.filter isNumericLiteral (columnValues rows i)).length >
          4 * (columnValues rows i).length
        then "numeric".toList else "string".toList) = _
  rw [List.filter_congr (fun x _ => isNumericLiteral_eq_spec x)]

/-- C5 witness: the spec's two example columns — values
`["1","2","3.5","x"]` give "string" (0.75 < 0.8), values `["1","2","3","4"]`
give "numeric". -/
theorem c5_witness :
    (columnTypes ["h".toList] [["1".toList], ["2".toList], ["3.5".toList], ["x".toList]])[0]? =
      some "string".toList ∧
    (columnTypes ["h".toList] [["1".toList], ["2".toList], ["3".toList], ["4".toList]])[0]? =
      some "numeric".toList :=
  ⟨(c5_column_type_spec ["h".toList] [["1".toList], ["2".toList], ["3.5".toList], ["x".toList]]
      0 (by decide)).trans (by decide),
   (c5_column_type_spec ["h".toList] [["1".toList], ["2".toList], ["3".toList], ["4".toList]]
      0 (by decide)).trans (by decide)⟩

/-- Looking a key up after a dict insertion: the inserted key maps to the
new value, every other key is untouched. -/
theorem assocLookup_dictUpdate (acc : List (Str × Str)) (k v k2 : Str) :
    assocLookup k2 (dictUpdate acc k v) =
      if k = k2 then some v else assocLookup k2 acc := by
  induction acc with
  | nil => simp [dictUpdate, assocLookup]
  | cons p t ih =>
    obtain ⟨k0, v0⟩ := p
    by_cases h0 : k0 = k
    · subst h0
      rw [show dictUpdate ((k0, v0) :: t) k0 v = (k0, v) :: t from by
        simp [dictUpdate]]
      by_cases h2 : k0 = k2
      · subst h2
        simp [assocLookup]
      · simp [assocLookup, h2]
    · rw [show dictUpdate ((k0, v0) :: t) k v = (k0, v0) :: dictUpdate t k v from by
        simp [dictUpdate, h0]]
      by_cases h2 : k0 = k2
      · subst h2
        have hne : ¬(k = k0) := fun h => h0 h.symm
        simp [assocLookup, hne]
      · simp [assocLookup, h2, ih]

/-- A key occurs in the keys of `dictUpdate acc k v` exactly when it is
`k` or already occurs in `acc`. -/
theorem mem_keys_dictUpdate (acc : List (Str × Str)) (k v k2 : Str) :
    k2 ∈ (dictUpdate acc k v).map Prod.fst ↔ k2 = k ∨ k2 ∈ acc.map Prod.fst := by
  induction acc with
  | nil => simp [dictUpdate]
  | cons p t ih =>
    obtain ⟨k0, v0⟩ := p
    by_cases h0 : k0 = k
    · subst h0
      rw [show dictUpdate ((k0, v0) :: t) k0 v = (k0, v) :: t from by simp [dictUpdate]]
      simp
    · rw [show dictUpdate ((k0, v0) :: t) k v = (k0, v0) :: dictUpdate t k v from by
        simp [dictUpdate, h0]]
      simp [ih]
      tauto

/-- Dict insertion preserves distinctness of the stored keys. -/
theorem nodup_keys_dictUpdate (acc : List (Str × Str)) (k v : Str)
    (h : (acc.map Prod.fst).Nodup) : ((dictUpdate acc k v).map Prod.fst).Nodup := by
  induction acc with
  | nil => simp [dictUpdate]
  | cons p t ih =>
    obtain ⟨k0, v0⟩ := p
    simp only [List.map_cons, List.nodup_cons] at h
    obtain ⟨hnot, hnd⟩ := h
    by_cases h0 : k0 = k
    · subst h0
      rw [show dictUpdate ((k0, v0) :: t) k0 v = (k0, v) :: t from by simp [dictUpdate]]
      simp only [List.map_cons, List.nodup_cons]
      exact ⟨hnot, hnd⟩
    · rw [show dictUpdate ((k0, v0) :: t) k v = (k0, v0) :: dictUpdate t k v from by
        simp [dictUpdate, h0]]
      simp only [List.map_cons, List.nodup_cons]
      refine ⟨?_, ih hnd⟩
      rw [mem_keys_dictUpdate]
      rintro (h | h)
      · exact h0 h
      · exact hnot h

/-- Folding dict insertions: lookup sees the last inserted value for the
key, falling back to the accumulator. -/
theorem assocLookup_foldl (ps : List (Str × Str)) : ∀ (acc : List (Str × Str)) (k : Str),
    assocLookup k (ps.foldl (fun a p => dictUpdate a p.1 p.2) acc) =
      match lastValue k ps with
      | some v => some v
      | none => assocLookup k acc := by
  induction ps with
  | nil => intro acc k; rfl
  | cons p t ih =>
    intro acc k
    rw [List.foldl_cons, ih]
    rcases hlv : lastValue k t with _ | v
    · rw [show lastValue k (p :: t) =
        (if p.1 = k then some p.2 else none) from by simp [lastValue, hlv]]
      rw [assocLookup_dictUpdate]
      by_cases hp : p.1 = k
      · simp [hp]
      · simp [hp]
    · rw [show lastValue k (p :: t) = some v from by simp [lastValue, hlv]]

/-- `pyDict` looked up at any key returns the value of the last pair with
that key — Python's "last duplicate wins". -/
theorem assocLookup_pyDict (ps : List (Str × Str)) (k : Str) :
    assocLookup k (pyDict ps) = lastValue k ps := by
  rw [show pyDict ps = ps.foldl (fun a p => dictUpdate a p.1 p.2) [] from rfl,
    assocLookup_foldl]
  rcases hlv : lastValue k ps with _ | v
  · rfl
  · rfl

/-- A key occurs in a folded dict exactly when it occurs in the inserted
pairs or in the accumulator. -/
theorem mem_keys_foldl (ps : List (Str × Str)) : ∀ (acc : List (Str × Str)) (k : Str),
    k ∈ (ps.foldl (fun a p => dictUpdate a p.1 p.2) acc).map Prod.fst ↔
      k ∈ ps.map Prod.fst ∨ k ∈ acc.map Prod.fst := by
  induction ps with
  | nil => intro acc k; simp
  | cons p t ih =>
    intro acc k
    rw [List.foldl_cons, ih, mem_keys_dictUpdate]
    simp
    tauto

/-- A folded dict stores each key at most once. -/
theorem nodup_keys_foldl (ps : List (Str × Str)) : ∀ (acc : List (Str × Str)),
    (acc.map Prod.fst).Nodup →
      ((ps.foldl (fun a p => dictUpdate a p.1 p.2) acc).map Prod.fst).Nodup := by
  induction ps with
  | nil => intro acc h; simpa using h
  | cons p t ih =>
    intro acc h
    rw [List.foldl_cons]
    exact ih _ (nodup_keys_dictUpdate acc p.1 p.2 h)

/-- `pyDict` has exactly one entry per distinct key of the pair list. -/
theorem length_pyDict (ps : List (Str × Str)) :
    (pyDict ps).length = (ps.map Prod.fst).toFinset.card := by
  have h1 : ((pyDict ps).map Prod.fst).Nodup := nodup_keys_foldl ps [] (by simp)
  have h2 : ((pyDict ps).map Prod.fst).toFinset = (ps.map Prod.fst).toFinset := by
    ext x
    simp only [List.mem_toFinset]
    rw [show pyDict ps = ps.foldl (fun a p => dictUpdate a p.1 p.2) [] from rfl,
      mem_keys_foldl]
    simp
  calc (pyDict ps).length
      = ((pyDict ps).map Prod.fst).length := (List.length_map _ _).symm
    _ = ((pyDict ps).map Prod.fst).toFinset.card := (List.toFinset_card_of_nodup h1).symm
    _ = (ps.map Prod.fst).toFinset.card := by rw [h2]

/-- The first components of `zip` recover the first list when it is no
longer than the second. -/
theorem map_fst_zip_of_length_le (hs : List Str) (ts : List Str)
    (h : hs.length ≤ ts.length) : (hs.zip ts).map Prod.fst = hs :=
  List.map_fst_zip hs ts h

/-- C9: the verifier's `column_data_types` is keyed by header name via
Python dict construction: its entry count is the number of distinct header
names (hence at most — and under duplicate names strictly less than — the
`header_count`), each name maps to the type of the last header position
bearing it, while `headers` and `header_count` still reflect the full
header sequence. -/
theorem c9_column_types_dict (hrec : List Str) (rest : List (List Str)) (d : Char) :
    (verify_csv (hrec :: rest) d).map VerificationReport.headers =
      some (tableHeaders d hrec) ∧
    (verify_csv (hrec :: rest) d).map VerificationReport.header_count =
      some (tableHeaders d hrec).length ∧
    (verify_csv (hrec :: rest) d).map (fun rep => rep.column_data_types.length) =
      some (tableHeaders d hrec).toFinset.card ∧
    (tableHeaders d hrec).toFinset.card ≤ (tableHeaders d hrec).length ∧
    ∀ name ∈ tableHeaders d hrec,
      (verify_csv (hrec :: rest) d).map (fun rep => assocLookup name rep.column_data_types) =
        some (lastValue name ((tableHeaders d hrec).zip
          (columnTypes (tableHeaders d hrec) (tableRows d rest)))) := by
  have hlen : (tableHeaders d hrec).length ≤
      (columnTypes (tableHeaders d hrec) (tableRows d rest)).length := by
    simp [columnTypes]
  refine ⟨verify_headers_eq hrec rest d, verify_header_count_eq hrec rest d, ?_, ?_, ?_⟩
  · have h := verify_dict_eq hrec rest d
    have : (verify_csv (hrec :: rest) d).map (fun rep => rep.column_data_types.length) =
        some ((pyDict ((tableHeaders d hrec).zip
          (columnTypes (tableHeaders d hrec) (tableRows d rest)))).length) := rfl
    rw [this, length_pyDict, map_fst_zip_of_length_le _ _ hlen]
  · exact List.toFinset_card_le _
  · intro name hname
    have : (verify_csv (hrec :: rest) d).map
        (fun rep => assocLookup name rep.column_data_types) =
          some (assocLookup name (pyDict ((tableHeaders d hrec).zip
            (columnTypes (tableHeaders d hrec) (tableRows d rest))))) := rfl
    rw [this, assocLookup_pyDict]

/-- C9 witness: header `["a","b","a"]` with one data row `["x","y","2"]`.
The dict has two entries (3 headers, 2 distinct names) and `"a"` maps to
"numeric" — the type of the last `"a"` position (whose value `"2"` is
numeric), not of the first (whose value `"x"` is not). -/
theorem c9_witness :
    "a".toList ∈ tableHeaders ',' ["a".toList, "b".toList, "a".toList] ∧
    (verify_csv [["a".toList, "b".toList, "a".toList], ["x".toList, "y".toList, "2".toList]]
      ',').map (fun rep => rep.column_data_types.length) = some 2 ∧
    (verify_csv [["a".toList, "b".toList, "a".toList], ["x".toList, "y".toList, "2".toList]]
      ',').map (fun rep => assocLookup "a".toList rep.column_data_types) =
        some (some "numeric".toList) := by
  have h := c9_column_types_dict ["a".toList, "b".toList, "a".toList]
    [["x".toList, "y".toList, "2".toList]] ','
  refine ⟨by decide, ?_, ?_⟩
  · rw [h.2.2.1]
    decide
  · rw [h.2.2.2.2 "a".toList (by decide)]
    decide

/-- The running best of the delimiter-count fold is the start value or a
member of the list. -/
theorem foldl_best_mem (l : List (Char × Nat)) :
    ∀ init : Char × Nat,
      l.foldl (fun best q => if q.2 > best.2 then q else best) init = init ∨
      l.foldl (fun best q => if q.2 > best.2 then q else best) init ∈ l := by
  induction l with
  | nil =>
    intro init
    left
    rfl
  | cons p t ih =>
    intro init
    rw [List.foldl_cons]
    rcases ih (if p.2 > init.2 then p else init) with h | h
    · rw [h]
      by_cases hp : p.2 > init.2
      · right
        rw [if_pos hp]
        exact List.mem_cons_self _ _
      · left
        rw [if_neg hp]
    · right
      exact List.mem_cons_of_mem _ h

/-- The fold never decreases the tracked count. -/
theorem foldl_best_ge_init (l : List (Char × Nat)) :
    ∀ init : Char × Nat,
      init.2 ≤ (l.foldl (fun best q => if q.2 > best.2 then q else best) init).2 := by
  induction l with
  | nil =>
    intro init
    exact le_refl _
  | cons p t ih =>
    intro init
    rw [List.foldl_cons]
    refine le_trans ?_ (ih _)
    by_cases hp : p.2 > init.2
    · rw [if_pos hp]
      omega
    · rw [if_neg hp]

/-- The fold's result dominates the count of every list member. -/
theorem foldl_best_ge_mem (l : List (Char × Nat)) :
    ∀ (init : Char × Nat) (p : Char × Nat), p ∈ l →
      p.2 ≤ (l.foldl (fun best q => if q.2 > best.2 then q else best) init).2 := by
  induction l with
  | nil =>
    intro init p hp
    cases hp
  | cons q t ih =>
    intro init p hp
    rw [List.foldl_cons]
    rcases List.mem_cons.mp hp with rfl | hp
    · refine le_trans ?_ (foldl_best_ge_init t _)
      by_cases hq : p.2 > init.2
      · rw [if_pos hq]
      · rw [if_neg hq]
        omega
    · exact ih _ p hp

/-- The header-delimiter pair carries the count of its own delimiter in
the first line. -/
theorem headerDelimPair_snd (l0 : Str) :
    (headerDelimPair l0).2 = l0.count (headerDelim l0) := by
  unfold headerDelim headerDelimPair bestDelim
  rcases foldl_best_mem (delimCounts l0) (',', 0) with h | h
  · rw [h]
    have hmem : ((',' : Char), l0.count ',') ∈ delimCounts l0 := by
      simp [delimCounts, candidateDelims]
    have hle := foldl_best_ge_mem (delimCounts l0) (',', 0) _ hmem
    rw [h] at hle
    simp at hle ⊢
    omega
  · obtain ⟨dd, hdd, heq⟩ := List.mem_map.mp h
    rw [← heq]

/-- The header delimiter's count dominates every candidate's count in the
first line. -/
theorem headerDelim_count_ge (l0 : Str) (dd : Char) (hdd : dd ∈ candidateDelims) :
    l0.count dd ≤ l0.count (headerDelim l0) := by
  have hmem : (dd, l0.count dd) ∈ delimCounts l0 :=
    List.mem_map.mpr ⟨dd, hdd, rfl⟩
  have := foldl_best_ge_mem (delimCounts l0) (',', 0) _ hmem
  rw [← headerDelimPair_snd l0]
  exact this

/-- When the first line contains some candidate delimiter, the header
delimiter occurs in it (`header_delimiters[best_header_delimiter] > 0`). -/
theorem headerDelim_pos (l0 : Str)
    (h : candidateDelims.any (fun dd => strContains l0 dd) = true) :
    0 < l0.count (headerDelim l0) := by
  obtain ⟨dd, hdd, hc⟩ := List.any_eq_true.mp h
  have hmem : dd ∈ l0 := of_decide_eq_true hc
  have hne : l0.count dd ≠ 0 := fun h0 => (List.count_eq_zero.mp h0) hmem
  have := headerDelim_count_ge l0 dd hdd
  omega

/-- C7: when the first line contains none of the four candidate
delimiters, the classifier never reports potential-CSV, whatever the
later lines contain. -/
theorem c7_no_header_delimiter_never_csv (l0 : Str) (rest : List Str)
    (h : ∀ dd ∈ candidateDelims, strContains l0 dd = false) :
    (classify (l0 :: rest)).map LineClassification.potential_csv = some false := by
  have hany : (candidateDelims.any (fun dd => strContains l0 dd)) = false := by
    rw [Bool.eq_false_iff]
    intro hc
    obtain ⟨dd, hdd, hp⟩ := List.any_eq_true.mp hc
    rw [h dd hdd] at hp
    exact Bool.false_ne_true hp
  simp only [classify]
  rw [hany]
  simp

/-- C7 witness: a delimiter-free header line over delimiter-rich data
lines is still not potential-CSV. -/
theorem c7_witness :
    (∀ dd ∈ candidateDelims, strContains "hello".toList dd = false) ∧
    (classify ["hello".toList, "a,b".toList, "c,d".toList]).map
      LineClassification.potential_csv = some false :=
  ⟨by decide,
    c7_no_header_delimiter_never_csv "hello".toList ["a,b".toList, "c,d".toList] (by decide)⟩

/-- C4 counterexample: lines `"a,b"`, `""`, `"x,y"`.  All (one) non-empty
subsequent lines match the header delimiter count, so the claim predicts
potential-CSV with confidence 1, but the code divides by the number of all
subsequent lines (2, the empty one included): 1 < 0.7·2, so the file is
not classified as potential-CSV. -/
theorem c4_counterexample :
    (classify ["a,b".toList, "".toList, "x,y".toList]).map
      LineClassification.potential_csv = some false ∧
    matchingLines "a,b".toList ["".toList, "x,y".toList] = 1 ∧
    specNonEmptyCount ["".toList, "x,y".toList] = 1 ∧
    10 * matchingLines "a,b".toList ["".toList, "x,y".toList] ≥
      7 * specNonEmptyCount ["".toList, "x,y".toList] :=
  ⟨by decide, by decide, by decide, by decide⟩

/-- C4 (amended): when the first line contains a candidate delimiter, the
input is classified potential-CSV exactly when the matching subsequent
lines are at least 0.7 times the number of ALL subsequent lines (empty
ones included, `len(lines) - 1`), and in that case the confidence is
`matching / max(1, len(lines) - 1)` and the chosen delimiter is the header
delimiter. -/
theorem c4_csv_likeness_threshold (l0 : Str) (rest : List Str)
    (h : candidateDelims.any (fun dd => strContains l0 dd) = true) :
    ((classify (l0 :: rest)).map LineClassification.potential_csv =
      some (decide (10 * matchingLines l0 rest ≥ 7 * rest.length))) ∧
    (10 * matchingLines l0 rest ≥ 7 * rest.length →
      (classify (l0 :: rest)).map LineClassification.csv_confidence =
        some ((matchingLines l0 rest : Rat) / ((max 1 rest.length : Nat) : Rat)) ∧
      (classify (l0 :: rest)).map LineClassification.potential_delimiter =
        some (some (headerDelim l0))) := by
  have hpos : 0 < l0.count (headerDelim l0) := headerDelim_pos l0 h
  refine ⟨?_, fun hth => ⟨?_, ?_⟩⟩
  · simp only [classify]
    rw [if_pos h, if_pos hpos]
    by_cases hth : 10 * matchingLines l0 rest ≥ 7 * rest.length
    · rw [if_pos hth]
      simp [hth]
    · rw [if_neg hth]
      simp [hth]
  · simp only [classify]
    rw [if_pos h, if_pos hpos, if_pos hth]
    simp
  · simp only [classify]
    rw [if_pos h, if_pos hpos, if_pos hth]
    simp

/-- C4 witness: header `"a,b"` followed by two matching comma lines is
classified potential-CSV with confidence 1 and delimiter `','`. -/
theorem c4_witness :
    candidateDelims.any (fun dd => strContains "a,b".toList dd) = true ∧
    (classify ["a,b".toList, "c,d".toList, "e,f".toList]).map
      LineClassification.potential_csv = some true ∧
    (classify ["a,b".toList, "c,d".toList, "e,f".toList]).map
      LineClassification.csv_confidence = some 1 ∧
    (classify ["a,b".toList, "c,d".toList, "e,f".toList]).map
      LineClassification.potential_delimiter = some (some ',') := by
  obtain ⟨h1, h2⟩ :=
    c4_csv_likeness_threshold "a,b".toList ["c,d".toList, "e,f".toList] (by decide)
  have hth : 10 * matchingLines "a,b".toList ["c,d".toList, "e,f".toList] ≥
      7 * (["c,d".toList, "e,f".toList] : List Str).length := by decide
  obtain ⟨hc, hd⟩ := h2 hth
  refine ⟨by decide, h1.trans (by decide), ?_, ?_⟩
  · rw [hc]
    have hm : matchingLines "a,b".toList ["c,d".toList, "e,f".toList] = 2 := by decide
    rw [hm]
    norm_num
  · rw [hd]
    have hh : headerDelim "a,b".toList = ',' := by decide
    rw [hh]

/-- The max-fold never goes below its start value. -/
theorem foldl_max_ge_init (l : List (List Str)) :
    ∀ a : Nat, a ≤ l.foldl (fun m r => max m r.length) a := by
  induction l with
  | nil =>
    intro a
    exact le_refl _
  | cons q t ih =>
    intro a
    rw [List.foldl_cons]
    exact le_trans (le_max_left _ _) (ih _)

/-- The max-fold dominates the length of every member. -/
theorem le_foldl_max (l : List (List Str)) :
    ∀ (a : Nat) (r : List Str), r ∈ l → r.length ≤ l.foldl (fun m r2 => max m r2.length) a := by
  induction l with
  | nil =>
    intro a r hr
    cases hr
  | cons q t ih =>
    intro a r hr
    rw [List.foldl_cons]
    rcases List.mem_cons.mp hr with rfl | hr
    · exact le_trans (le_max_right _ _) (foldl_max_ge_init t _)
    · exact ih _ r hr

/-- C8: in plain-text-to-table promotion, the row at each position is the
split row extended with empty-string cells up to the observed maximum
column count — rows are only ever padded, never truncated, so no cell
value is lost. -/
theorem c8_promotion_pads_never_truncates (d : Char) (lines : List Str) (i : Nat)
    (r : List Str) (h : (rawRows d lines)[i]? = some r) :
    r.length ≤ maxColumns d lines ∧
    (promoteRows d lines)[i]? =
      some (r ++ List.replicate (maxColumns d lines - r.length) ([] : Str)) ∧
    (r ++ List.replicate (maxColumns d lines - r.length) ([] : Str)).length =
      maxColumns d lines := by
  have hmem : r ∈ rawRows d lines := List.getElem?_mem h
  have hle : r.length ≤ maxColumns d lines := le_foldl_max _ 0 r hmem
  refine ⟨hle, ?_, ?_⟩
  · unfold promoteRows
    rw [List.getElem?_map, h]
    rfl
  · simp
    omega

/-- C8 witness: promoting `"a,b,c"`, `"d,e"` with delimiter `','` pads the
second row to `["d","e",""]` and truncates nothing. -/
theorem c8_witness :
    (rawRows ',' ["a,b,c".toList, "d,e".toList])[1]? = some ["d".toList, "e".toList] ∧
    (["d".toList, "e".toList] : List Str).length ≤ maxColumns ',' ["a,b,c".toList, "d,e".toList] ∧
    (promoteRows ',' ["a,b,c".toList, "d,e".toList])[1]? =
      some (["d".toList, "e".toList] ++
        List.replicate (maxColumns ',' ["a,b,c".toList, "d,e".toList] - 2) ([] : Str)) ∧
    promoteRows ',' ["a,b,c".toList, "d,e".toList] =
      [["a".toList, "b".toList, "c".toList], ["d".toList, "e".toList, [] ]] := by
  have h := c8_promotion_pads_never_truncates ',' ["a,b,c".toList, "d,e".toList] 1
    ["d".toList, "e".toList] (by decide)
  exact ⟨by decide, h.1, h.2.1, by decide⟩

/-- The cons equation of `pySplit`, for rewriting. -/
theorem pySplit_cons (d c : Char) (cs : Str) :
    pySplit d (c :: cs) =
      match pySplit d cs with
      | [] => [[]]
      | r :: rs => if c = d then [] :: r :: rs else (c :: r) :: rs := rfl

/-- `s.split(d)` always produces at least one piece. -/
theorem pySplit_ne_nil (d : Char) (l : Str) : pySplit d l ≠ [] := by
  cases l with
  | nil => simp [pySplit]
  | cons c cs =>
    rw [pySplit_cons]
    rcases h : pySplit d cs with _ | ⟨r, rs⟩
    · simp
    · by_cases hc : c = d
      · simp [hc]
      · simp [hc]

/-- Splitting a delimiter-free string yields that single piece. -/
theorem pySplit_no_delim (d : Char) (l : Str) (h : d ∉ l) : pySplit d l = [l] := by
  induction l with
  | nil => rfl
  | cons c cs ih =>
    have hcd : c ≠ d := fun he => h (he ▸ List.mem_cons_self c cs)
    have hcs : d ∉ cs := fun hm => h (List.mem_cons_of_mem _ hm)
    rw [pySplit_cons, ih hcs]
    show (if c = d then [[], cs] else [c :: cs]) = [c :: cs]
    rw [if_neg hcd]

/-- Splitting at an explicit first delimiter occurrence peels off the
delimiter-free prefix. -/
theorem pySplit_append_delim (d : Char) (b : Str) :
    ∀ a : Str, d ∉ a → pySplit d (a ++ d :: b) = a :: pySplit d b := by
  intro a
  induction a with
  | nil =>
    intro _
    rcases hsb : pySplit d b with _ | ⟨r, rs⟩
    · exact absurd hsb (pySplit_ne_nil d b)
    · rw [List.nil_append, pySplit_cons, hsb]
      show (if d = d then [] :: r :: rs else (d :: r) :: rs) = [] :: r :: rs
      rw [if_pos rfl]
  | cons c a2 ih =>
    intro h
    have hcd : c ≠ d := fun he => h (he ▸ List.mem_cons_self c a2)
    have ha2 : d ∉ a2 := fun hm => h (List.mem_cons_of_mem _ hm)
    rw [List.cons_append, pySplit_cons, ih ha2]
    show (if c = d then [] :: a2 :: pySplit d b else (c :: a2) :: pySplit d b) =
      (c :: a2) :: pySplit d b
    rw [if_neg hcd]

/-- The two-or-more-cells equation of `joinWith`, for rewriting. -/
theorem joinWith_cons2 (d : Char) (c c2 : Str) (cs : List Str) :
    joinWith d (c :: c2 :: cs) = c ++ d :: joinWith d (c2 :: cs) := rfl

/-- Splitting on `d` inverts joining with `d` when no cell contains `d`. -/
theorem pySplit_joinWith (d : Char) :
    ∀ cells : List Str, cells ≠ [] → (∀ c ∈ cells, d ∉ c) →
      pySplit d (joinWith d cells) = cells := by
  intro cells
  induction cells with
  | nil =>
    intro h _
    exact absurd rfl h
  | cons c cs ih =>
    intro _ hall
    rcases cs with _ | ⟨c2, cs2⟩
    · show pySplit d c = [c]
      exact pySplit_no_delim d c (hall c (List.mem_cons_self _ _))
    · rw [joinWith_cons2,
        pySplit_append_delim d (joinWith d (c2 :: cs2)) c (hall c (List.mem_cons_self _ _)),
        ih (by simp) (fun x hx => hall x (List.mem_cons_of_mem _ hx))]

/-- A cell that needs no quoting is written verbatim. -/
theorem quoteCell_of_not_needsQuote (d : Char) (cell : Str) (h : needsQuote d cell = false) :
    quoteCell d cell = cell := by
  unfold quoteCell
  simp [h]

/-- A cell that needs no quoting w.r.t. `d` does not contain `d`. -/
theorem not_mem_of_not_needsQuote (d : Char) (cell : Str) (h : needsQuote d cell = false) :
    d ∉ cell := by
  unfold needsQuote at h
  simp only [Bool.or_eq_false_iff] at h
  have h1 : strContains cell d = false := h.1.1.1
  unfold strContains at h1
  simpa using h1

/-- A row of quote-free cells is serialized as a plain join. -/
theorem serializeRow_no_quote (d : Char) (row : List Str)
    (h : ∀ c ∈ row, needsQuote d c = false) :
    serializeRow d row = joinWith d row := by
  unfold serializeRow
  rw [List.map_congr_left (fun c hc => quoteCell_of_not_needsQuote d c (h c hc))]
  simp

/-- Pre-padding rows are nonempty. -/
theorem rawRow_ne_nil (d : Char) (lines : List Str) (r : List Str)
    (h : r ∈ rawRows d lines) : r ≠ [] := by
  obtain ⟨line, _, hline⟩ := List.mem_map.mp h
  rw [← hline]
  unfold splitLineForCsv
  by_cases hc : strContains line d = true
  · rw [if_pos hc]
    exact pySplit_ne_nil _ _
  · rw [if_neg hc]
    simp

/-- Promoted rows are nonempty. -/
theorem promoted_ne_nil (d : Char) (lines : List Str) (row : List Str)
    (h : row ∈ promoteRows d lines) : row ≠ [] := by
  obtain ⟨r, hr, hrow⟩ := List.mem_map.mp h
  rw [← hrow]
  intro hnil
  exact rawRow_ne_nil d lines r hr (List.append_eq_nil.mp hnil).1

/-- C10: the txt→csv transform splits each line on the classifier's
`detected` delimiter, but writes with the caller-supplied delimiter:
whenever the cells need no quoting under the requested delimiter,
splitting each written output line on the requested delimiter recovers
exactly the rows that were built with the detected one. -/
theorem c10_writes_requested_delimiter (lines : List Str) (detected req : Char)
    (h : ∀ row ∈ promoteRows detected lines, ∀ c ∈ row, needsQuote req c = false) :
    (transformTxtRows lines detected req).map (pySplit req) = promoteRows detected lines := by
  unfold transformTxtRows
  rw [List.map_map]
  have hid : ∀ row ∈ promoteRows detected lines,
      (pySplit req ∘ serializeRow req) row = id row := by
    intro row hrow
    show pySplit req (serializeRow req row) = row
    rw [serializeRow_no_quote req row (h row hrow)]
    exact pySplit_joinWith req row (promoted_ne_nil detected lines row hrow)
      (fun c hc => not_mem_of_not_needsQuote req c (h row hrow c hc))
  rw [List.map_congr_left hid, List.map_id]

/-- C10 witness: lines split on the detected `';'` but written with the
requested `','` — the output lines parse back on `','`, and concretely the
written lines are `"a,b"` and `"c,d"`. -/
theorem c10_witness :
    (∀ row ∈ promoteRows ';' ["a;b".toList, "c;d".toList],
      ∀ c ∈ row, needsQuote ',' c = false) ∧
    (transformTxtRows ["a;b".toList, "c;d".toList] ';' ',').map (pySplit ',') =
      promoteRows ';' ["a;b".toList, "c;d".toList] ∧
    transformTxtRows ["a;b".toList, "c;d".toList] ';' ',' = ["a,b".toList, "c,d".toList] :=
  ⟨by decide, c10_writes_requested_delimiter ["a;b".toList, "c;d".toList] ';' ',' (by decide),
    by decide⟩

/-- C6: for every nonempty byte sequence that is valid UTF-8, the
(spec-modelled) detector returns the UTF-8 label, and detection is
deterministic — equal inputs give equal results. -/
theorem c6_detect_utf8 (bs : List Nat) (h1 : bs ≠ []) (h2 : isValidUTF8 bs = true) :
    detect_encoding bs = some "utf-8" ∧
    ∀ bs2 : List Nat, bs2 = bs → detect_encoding bs2 = detect_encoding bs := by
  refine ⟨?_, fun bs2 he => he ▸ rfl⟩
  unfold detect_encoding
  rw [if_neg (by simpa using h1), if_pos h2]

/-- C6 witness: the UTF-8 bytes of `"aé"` are detected as UTF-8. -/
theorem c6_witness :
    ([0x61, 0xC3, 0xA9] : List Nat) ≠ [] ∧ isValidUTF8 [0x61, 0xC3, 0xA9] = true ∧
    detect_encoding [0x61, 0xC3, 0xA9] = some "utf-8" :=
  ⟨by decide, by decide, (c6_detect_utf8 [0x61, 0xC3, 0xA9] (by decide) (by decide)).1⟩
